import Mathlib

/-!
Verification of the simserver-imager streaming image pipeline.

This file gives a shallow embedding of the core data paths of the
repository and proves properties of them:

* the VSI sparse-image codec of src/vsiextractthread.cpp
  (header parsing, the sparse/data block protocol of
  _processDecompressedData, and the post-decode integrity verification
  of extractVsiLocalRun);
* the archive extraction loops of src/downloadarchiveextractthread.cpp
  (_extractCompressedEntry / _extractUncompressedEntry and the entry
  search of extractImageRun);
* the entry matching of src/archiveentryiodevice.cpp.

Bytes are modelled as natural numbers (values 0..255 in the intended
range); byte buffers as lists of naturals.  External collaborators
(zlib, the MD5 hash, the DeviceWriter) are abstracted: zlib output is a
parameter (the decompressed chunk produced for each compressed chunk
read), MD5 is an arbitrary function parameter, and device writes are
modelled as succeeding, with the byte sequence handed to the writer
recorded in the state.
-/

namespace SimserverImager

/-! ## VSI decoder state (vsiextractthread.h lines 58-86)

The fields mirror the members of VsiExtractThread that
_processDecompressedData reads and writes: _expectingDelimiter,
_bytesInCurrentBlock, the page-aligned write buffer (contents
`writeBuffer`, so `_writeBufferUsed` is `writeBuffer.length`), and
_totalBytesWritten.  `flushed` records every byte handed to _writeFile
by _flushWriteBuffer, in order; it stands for the DeviceWriter's view. -/
structure VsiState where
  expectingDelimiter : Bool
  bytesInCurrentBlock : Nat
  writeBuffer : List Nat
  flushed : List Nat
  totalBytesWritten : Nat
  deriving Repr, DecidableEq

/-- Constructor state (vsiextractthread.cpp lines 24-31). -/
def initVsiState : VsiState :=
  { expectingDelimiter := true
    bytesInCurrentBlock := 0
    writeBuffer := []
    flushed := []
    totalBytesWritten := 0 }

/-- The value of `_writeBufferCapacity` as allocated in extractVsiLocalRun (line 221). -/
def writeBufferCapacity : Nat := 8 * 1024 * 1024

/-- The helper `_appendToWriteBuffer` (vsiextractthread.cpp lines 167-172). -/
def appendToWriteBuffer (st : VsiState) (data : List Nat) : VsiState :=
  { st with writeBuffer := st.writeBuffer ++ data }

/-- The helper `_flushWriteBuffer` (vsiextractthread.cpp lines 174-189); the
device write is modelled as succeeding, the written bytes are appended
to `flushed`. -/
def flushWriteBuffer (st : VsiState) : VsiState :=
  { st with flushed := st.flushed ++ st.writeBuffer, writeBuffer := [] }

/-- The flush-before-append check used at lines 393-397 and 417-421:
flush when the incoming `incoming` bytes would overflow the buffer. -/
def flushIfNeeded (st : VsiState) (incoming : Nat) : VsiState :=
  if st.writeBuffer.length + incoming > writeBufferCapacity then
    flushWriteBuffer st
  else st

/-- All bytes emitted towards the device so far: bytes already handed to
_writeFile plus bytes still sitting in the write buffer. -/
def emitted (st : VsiState) : List Nat := st.flushed ++ st.writeBuffer

@[simp] theorem appendToWriteBuffer_expecting (st : VsiState) (data : List Nat) :
    (appendToWriteBuffer st data).expectingDelimiter = st.expectingDelimiter := rfl

@[simp] theorem appendToWriteBuffer_bytesInCurrentBlock (st : VsiState) (data : List Nat) :
    (appendToWriteBuffer st data).bytesInCurrentBlock = st.bytesInCurrentBlock := rfl

@[simp] theorem appendToWriteBuffer_totalBytesWritten (st : VsiState) (data : List Nat) :
    (appendToWriteBuffer st data).totalBytesWritten = st.totalBytesWritten := rfl

@[simp] theorem appendToWriteBuffer_emitted (st : VsiState) (data : List Nat) :
    emitted (appendToWriteBuffer st data) = emitted st ++ data := by
  simp [emitted, appendToWriteBuffer]

@[simp] theorem flushWriteBuffer_expecting (st : VsiState) :
    (flushWriteBuffer st).expectingDelimiter = st.expectingDelimiter := rfl

@[simp] theorem flushWriteBuffer_bytesInCurrentBlock (st : VsiState) :
    (flushWriteBuffer st).bytesInCurrentBlock = st.bytesInCurrentBlock := rfl

@[simp] theorem flushWriteBuffer_totalBytesWritten (st : VsiState) :
    (flushWriteBuffer st).totalBytesWritten = st.totalBytesWritten := rfl

@[simp] theorem flushWriteBuffer_emitted (st : VsiState) :
    emitted (flushWriteBuffer st) = emitted st := by
  simp [emitted, flushWriteBuffer]

@[simp] theorem flushIfNeeded_expecting (st : VsiState) (n : Nat) :
    (flushIfNeeded st n).expectingDelimiter = st.expectingDelimiter := by
  unfold flushIfNeeded; split <;> rfl

@[simp] theorem flushIfNeeded_bytesInCurrentBlock (st : VsiState) (n : Nat) :
    (flushIfNeeded st n).bytesInCurrentBlock = st.bytesInCurrentBlock := by
  unfold flushIfNeeded; split <;> rfl

@[simp] theorem flushIfNeeded_totalBytesWritten (st : VsiState) (n : Nat) :
    (flushIfNeeded st n).totalBytesWritten = st.totalBytesWritten := by
  unfold flushIfNeeded; split <;> rfl

@[simp] theorem flushIfNeeded_emitted (st : VsiState) (n : Nat) :
    emitted (flushIfNeeded st n) = emitted st := by
  unfold flushIfNeeded; split <;> simp

/-! ## The block protocol: `_processDecompressedData`
(vsiextractthread.cpp lines 373-451).

`blockSize` is `_header.blockSize` (a positive value after header
validation), used as a `Nat`.  The function consumes the whole `data`
argument (the C++ loop runs until `offset == len`; the `_pendingData`
stash at lines 438-448 is populated only when cancellation interrupts
the loop mid-way, so it is inert in an uncancelled call, and
cancellation is handled at the call sites in this model).  `none`
models the `return false` on an invalid delimiter (lines 405-409);
device writes are modelled as succeeding, so the flush failure paths
do not fire.

The branch for a data block whose `remaining` count is zero re-checks
block completion without consuming input, exactly as the source does
when `_bytesInCurrentBlock == blockSize` (lines 412-434 with
`toAppend == 0`); with `size_t` arithmetic the case
`_bytesInCurrentBlock > blockSize` is unreachable (the invariant of
theorem c10 below), and natural subtraction folds it into the same
branch. -/
def processDecompressedData (blockSize : Nat) :
    VsiState → List Nat → Option VsiState
  | st, [] => some st
  | st, d :: rest =>
    if st.expectingDelimiter then
      if d = 0x00 then
        -- Sparse block: flush if needed, then append blockSize zero
        -- bytes from the pre-zeroed _zeroBlock (lines 390-400).
        let st1 := appendToWriteBuffer (flushIfNeeded st blockSize)
          (List.replicate blockSize 0)
        processDecompressedData blockSize
          { st1 with totalBytesWritten := st1.totalBytesWritten + blockSize }
          rest
      else if d = 0x01 then
        -- Data block follows (lines 401-404).
        processDecompressedData blockSize
          { st with expectingDelimiter := false, bytesInCurrentBlock := 0 }
          rest
      else
        -- Invalid delimiter (lines 405-409).
        none
    else
      let data := d :: rest
      if hrem : blockSize - st.bytesInCurrentBlock = 0 then
        -- Block already complete: expect the next delimiter without
        -- consuming input (lines 430-434 reached with toAppend == 0).
        processDecompressedData blockSize
          { st with expectingDelimiter := true, bytesInCurrentBlock := 0 }
          data
      else
        -- Data block content (lines 410-435).
        let remaining := blockSize - st.bytesInCurrentBlock
        let toAppend := min remaining data.length
        let st1 := appendToWriteBuffer (flushIfNeeded st toAppend)
          (data.take toAppend)
        let st2 :=
          { st1 with
            bytesInCurrentBlock := st.bytesInCurrentBlock + toAppend
            totalBytesWritten := st1.totalBytesWritten + toAppend }
        let st3 :=
          if st2.bytesInCurrentBlock = blockSize then
            { st2 with expectingDelimiter := true, bytesInCurrentBlock := 0 }
          else st2
        processDecompressedData blockSize st3 (data.drop toAppend)
  termination_by st data =>
    2 * data.length + (if st.expectingDelimiter then 0 else 1)
  decreasing_by
  · simp_all
  · simp_all
    omega
  · simp_all
  · split <;> simp_all <;> omega

/-! Single-step unfolding equations for `processDecompressedData`. -/

theorem processDecompressedData_nil (bs : Nat) (st : VsiState) :
    processDecompressedData bs st [] = some st := by
  rw [processDecompressedData]

theorem processDecompressedData_sparse (bs : Nat) (st : VsiState) (rest : List Nat)
    (h : st.expectingDelimiter = true) :
    processDecompressedData bs st (0x00 :: rest) =
      processDecompressedData bs
        { appendToWriteBuffer (flushIfNeeded st bs) (List.replicate bs 0) with
          totalBytesWritten :=
            (appendToWriteBuffer (flushIfNeeded st bs) (List.replicate bs 0)).totalBytesWritten
              + bs }
        rest := by
  rw [processDecompressedData]
  simp [h]

theorem processDecompressedData_dataDelim (bs : Nat) (st : VsiState) (rest : List Nat)
    (h : st.expectingDelimiter = true) :
    processDecompressedData bs st (0x01 :: rest) =
      processDecompressedData bs
        { st with expectingDelimiter := false, bytesInCurrentBlock := 0 } rest := by
  rw [processDecompressedData]
  simp [h]

theorem processDecompressedData_badDelim (bs : Nat) (st : VsiState) (d : Nat) (rest : List Nat)
    (h : st.expectingDelimiter = true) (h0 : d ≠ 0x00) (h1 : d ≠ 0x01) :
    processDecompressedData bs st (d :: rest) = none := by
  rw [processDecompressedData]
  simp [h, h0, h1]

theorem processDecompressedData_blockFull (bs : Nat) (st : VsiState) (d : Nat) (rest : List Nat)
    (h : st.expectingDelimiter = false) (hrem : bs - st.bytesInCurrentBlock = 0) :
    processDecompressedData bs st (d :: rest) =
      processDecompressedData bs
        { st with expectingDelimiter := true, bytesInCurrentBlock := 0 } (d :: rest) := by
  rw [processDecompressedData]
  simp [h, hrem]

theorem processDecompressedData_dataBytes (bs : Nat) (st : VsiState) (d : Nat) (rest : List Nat)
    (h : st.expectingDelimiter = false) (hrem : bs - st.bytesInCurrentBlock ≠ 0) :
    processDecompressedData bs st (d :: rest) =
      (let toAppend := min (bs - st.bytesInCurrentBlock) (d :: rest).length
       let st1 := appendToWriteBuffer (flushIfNeeded st toAppend) ((d :: rest).take toAppend)
       let st2 :=
         { st1 with
           bytesInCurrentBlock := st.bytesInCurrentBlock + toAppend
           totalBytesWritten := st1.totalBytesWritten + toAppend }
       let st3 :=
         if st2.bytesInCurrentBlock = bs then
           { st2 with expectingDelimiter := true, bytesInCurrentBlock := 0 }
         else st2
       processDecompressedData bs st3 ((d :: rest).drop toAppend)) := by
  conv_lhs => rw [processDecompressedData]
  simp only [h, Bool.false_eq_true, if_false, dif_neg hrem]

/-! ## Observable behaviour of the block protocol

The `flushIfNeeded` checks move bytes from the write buffer to the
device earlier or later depending on buffer fill, but never change the
overall byte sequence emitted.  `VsiObs` is the flush-independent view
of the decoder state; `stepObs` is a byte-at-a-time reference decoder
on that view, used to prove that `_processDecompressedData` produces
the same output however the decompressed stream is chunked. -/

structure VsiObs where
  expectingDelimiter : Bool
  bytesInCurrentBlock : Nat
  totalBytesWritten : Nat
  emitted : List Nat
  deriving Repr, DecidableEq

def obs (st : VsiState) : VsiObs :=
  { expectingDelimiter := st.expectingDelimiter
    bytesInCurrentBlock := st.bytesInCurrentBlock
    totalBytesWritten := st.totalBytesWritten
    emitted := emitted st }

/-- Fold the already-complete-block case (unreachable under the
invariant) into a delimiter-expecting state, mirroring the source loop
reaching lines 430-434 with nothing left to append. -/
def normalizeObs (blockSize : Nat) (o : VsiObs) : VsiObs :=
  if o.expectingDelimiter = false ∧ blockSize - o.bytesInCurrentBlock = 0 then
    { o with expectingDelimiter := true, bytesInCurrentBlock := 0 }
  else o

def stepObs (blockSize : Nat) (o : VsiObs) (d : Nat) : Option VsiObs :=
  let o1 := normalizeObs blockSize o
  if o1.expectingDelimiter then
    if d = 0x00 then
      some { o1 with
        totalBytesWritten := o1.totalBytesWritten + blockSize
        emitted := o1.emitted ++ List.replicate blockSize 0 }
    else if d = 0x01 then
      some { o1 with expectingDelimiter := false, bytesInCurrentBlock := 0 }
    else none
  else
    let o2 :=
      { o1 with
        bytesInCurrentBlock := o1.bytesInCurrentBlock + 1
        totalBytesWritten := o1.totalBytesWritten + 1
        emitted := o1.emitted ++ [d] }
    some (if o2.bytesInCurrentBlock = blockSize then
      { o2 with expectingDelimiter := true, bytesInCurrentBlock := 0 }
    else o2)

def runObs (blockSize : Nat) : VsiObs → List Nat → Option VsiObs
  | o, [] => some o
  | o, d :: rest =>
    match stepObs blockSize o d with
    | none => none
    | some o2 => runObs blockSize o2 rest

theorem runObs_cons (bs : Nat) (o : VsiObs) (d : Nat) (rest : List Nat) :
    runObs bs o (d :: rest) =
      (stepObs bs o d).bind fun o2 => runObs bs o2 rest := by
  cases h : stepObs bs o d <;> simp [runObs, h]

theorem runObs_append (bs : Nat) (a b : List Nat) : ∀ o : VsiObs,
    runObs bs o (a ++ b) = (runObs bs o a).bind fun o2 => runObs bs o2 b := by
  induction a with
  | nil => intro o; simp [runObs]
  | cons d a ih =>
    intro o
    rw [List.cons_append, runObs_cons, runObs_cons]
    cases stepObs bs o d with
    | none => rfl
    | some o2 => simp [ih]

theorem normalizeObs_idem (bs : Nat) (o : VsiObs) :
    normalizeObs bs (normalizeObs bs o) = normalizeObs bs o := by
  unfold normalizeObs
  split <;> simp_all

theorem stepObs_normalizeObs (bs : Nat) (o : VsiObs) (d : Nat) :
    stepObs bs (normalizeObs bs o) d = stepObs bs o d := by
  unfold stepObs
  rw [normalizeObs_idem]

/-- Consuming a whole chunk of data-block payload with the
byte-at-a-time decoder: the chunk is emitted verbatim and the block
counter advances by its length. -/
theorem runObs_data_chunk (bs : Nat) (c : List Nat) : ∀ (o : VsiObs) (rest : List Nat),
    o.expectingDelimiter = false → c ≠ [] →
    c.length ≤ bs - o.bytesInCurrentBlock →
    runObs bs o (c ++ rest) =
      runObs bs
        (if o.bytesInCurrentBlock + c.length = bs then
          { expectingDelimiter := true
            bytesInCurrentBlock := 0
            totalBytesWritten := o.totalBytesWritten + c.length
            emitted := o.emitted ++ c }
        else
          { expectingDelimiter := false
            bytesInCurrentBlock := o.bytesInCurrentBlock + c.length
            totalBytesWritten := o.totalBytesWritten + c.length
            emitted := o.emitted ++ c }) rest := by
  induction c with
  | nil => intro o rest hexp hne hlen; exact absurd rfl hne
  | cons d c ih =>
    intro o rest hexp hne hlen
    rw [List.cons_append, runObs_cons]
    have hrem : ¬(bs - o.bytesInCurrentBlock = 0) := by
      simp only [List.length_cons] at hlen; omega
    have hstep : stepObs bs o d =
        some (if o.bytesInCurrentBlock + 1 = bs then
          { expectingDelimiter := true
            bytesInCurrentBlock := 0
            totalBytesWritten := o.totalBytesWritten + 1
            emitted := o.emitted ++ [d] }
        else
          { expectingDelimiter := false
            bytesInCurrentBlock := o.bytesInCurrentBlock + 1
            totalBytesWritten := o.totalBytesWritten + 1
            emitted := o.emitted ++ [d] }) := by
      unfold stepObs normalizeObs
      simp [hexp, hrem]
    rw [hstep]
    simp only [Option.some_bind]
    by_cases hfull : o.bytesInCurrentBlock + 1 = bs
    · -- the chunk ends exactly at the block boundary, so c = []
      have hc : c = [] := by
        simp only [List.length_cons] at hlen
        have : c.length = 0 := by omega
        exact List.eq_nil_of_length_eq_zero this
      subst hc
      simp [hfull]
    · rw [if_neg hfull]
      by_cases hc : c = []
      · subst hc
        simp only [List.nil_append, List.length_cons, List.length_nil]
        have h1 : ¬(o.bytesInCurrentBlock + 1 = bs) := hfull
        simp [h1]
      · rw [ih _ rest rfl hc (by
          simp only [List.length_cons] at hlen
          show c.length ≤ bs - (o.bytesInCurrentBlock + 1)
          omega)]
        simp only [List.length_cons]
        have harith : o.bytesInCurrentBlock + 1 + c.length = o.bytesInCurrentBlock + (c.length + 1) := by omega
        rw [harith]
        have hem : o.emitted ++ [d] ++ c = o.emitted ++ (d :: c) := by simp
        rw [hem]
        have htot : o.totalBytesWritten + 1 + c.length = o.totalBytesWritten + (c.length + 1) := by omega
        rw [htot]

/-- Bridge: `_processDecompressedData` agrees with the byte-at-a-time
reference decoder on the observable state, for every input chunk. -/
theorem processDecompressedData_obs (bs : Nat) (st : VsiState) (data : List Nat) :
    Option.map obs (processDecompressedData bs st data) = runObs bs (obs st) data := by
  induction st, data using processDecompressedData.induct bs with
  | case1 st => simp [processDecompressedData_nil, runObs]
  | case2 st rest hexp st1 ih =>
    rw [processDecompressedData_sparse bs st rest hexp, runObs_cons]
    have hstep : stepObs bs (obs st) 0x00 =
        some (obs { appendToWriteBuffer (flushIfNeeded st bs) (List.replicate bs 0) with
          totalBytesWritten :=
            (appendToWriteBuffer (flushIfNeeded st bs) (List.replicate bs 0)).totalBytesWritten
              + bs }) := by
      unfold stepObs normalizeObs
      simp only [obs, hexp, Bool.true_eq_false, false_and, if_false,
        appendToWriteBuffer_expecting, flushIfNeeded_expecting,
        appendToWriteBuffer_bytesInCurrentBlock, flushIfNeeded_bytesInCurrentBlock,
        appendToWriteBuffer_totalBytesWritten, flushIfNeeded_totalBytesWritten,
        if_true, ite_true]
      have hem : emitted ({ appendToWriteBuffer (flushIfNeeded st bs) (List.replicate bs 0) with
          totalBytesWritten :=
            (appendToWriteBuffer (flushIfNeeded st bs) (List.replicate bs 0)).totalBytesWritten
              + bs } : VsiState) = emitted st ++ List.replicate bs 0 := by
        simp [emitted, appendToWriteBuffer, flushIfNeeded, flushWriteBuffer]
        split <;> simp
      simp_all
    rw [hstep]
    simp only [Option.some_bind]
    exact ih
  | case3 st rest hexp hne ih =>
    rw [processDecompressedData_dataDelim bs st rest hexp, runObs_cons]
    have hstep : stepObs bs (obs st) 0x01 =
        some (obs { st with expectingDelimiter := false, bytesInCurrentBlock := 0 }) := by
      unfold stepObs normalizeObs
      simp [obs, hexp, emitted]
    rw [hstep]
    simp only [Option.some_bind]
    exact ih
  | case4 st d rest hexp hne0 hne1 =>
    rw [processDecompressedData_badDelim bs st d rest hexp hne0 hne1, runObs_cons]
    have hstep : stepObs bs (obs st) d = none := by
      unfold stepObs normalizeObs
      simp [obs, hexp, hne0, hne1]
    rw [hstep]
    rfl
  | case5 st d rest hexp data hrem ih =>
    have hexpF : st.expectingDelimiter = false := by
      simpa using hexp
    rw [processDecompressedData_blockFull bs st d rest hexpF hrem]
    rw [ih, runObs_cons, runObs_cons]
    have hnorm : normalizeObs bs (obs st) =
        obs { st with expectingDelimiter := true, bytesInCurrentBlock := 0 } := by
      unfold normalizeObs
      rw [if_pos]
      · simp [obs, emitted]
      · exact ⟨by simpa using hexp, hrem⟩
    rw [← stepObs_normalizeObs bs (obs st) d, hnorm]
  | case6 st d rest hexp data hrem remaining toAppend st1 st2 st3 ih =>
    have hexpF : st.expectingDelimiter = false := by
      simpa using hexp
    unfold_let st3 st2 st1 toAppend remaining data at ih
    simp only [dite_eq_ite] at ih
    rw [processDecompressedData_dataBytes bs st d rest hexpF hrem]
    simp only []
    rw [ih]
    have hsplit : (d :: rest) =
        (d :: rest).take (min (bs - st.bytesInCurrentBlock) (d :: rest).length) ++
        (d :: rest).drop (min (bs - st.bytesInCurrentBlock) (d :: rest).length) :=
      (List.take_append_drop _ _).symm
    conv_rhs => rw [hsplit]
    have hexpO : (obs st).expectingDelimiter = false := hexpF
    have hlen1 : 1 ≤ min (bs - st.bytesInCurrentBlock) (d :: rest).length := by
      simp only [List.length_cons]; omega
    have hne : (d :: rest).take (min (bs - st.bytesInCurrentBlock) (d :: rest).length) ≠ [] := by
      intro hcon
      have := congrArg List.length hcon
      simp only [List.length_take, List.length_nil] at this
      omega
    have hlenle : ((d :: rest).take (min (bs - st.bytesInCurrentBlock) (d :: rest).length)).length ≤
        bs - (obs st).bytesInCurrentBlock := by
      simp only [List.length_take, obs]
      omega
    rw [runObs_data_chunk bs _ _ _ hexpO hne hlenle]
    have hlentake : ((d :: rest).take (min (bs - st.bytesInCurrentBlock) (d :: rest).length)).length =
        min (bs - st.bytesInCurrentBlock) (d :: rest).length := by
      simp only [List.length_take]
      omega
    rw [hlentake]
    clear ih
    rw [apply_ite obs]
    have hbytesO : (obs st).bytesInCurrentBlock = st.bytesInCurrentBlock := rfl
    rw [hbytesO]
    by_cases hfull :
        st.bytesInCurrentBlock + min (bs - st.bytesInCurrentBlock) (d :: rest).length = bs
    · rw [if_pos hfull, if_pos hfull]
      have hst : obs ({
          expectingDelimiter := true
          bytesInCurrentBlock := 0
          writeBuffer := (appendToWriteBuffer
            (flushIfNeeded st (min (bs - st.bytesInCurrentBlock) (d :: rest).length))
            ((d :: rest).take (min (bs - st.bytesInCurrentBlock) (d :: rest).length))).writeBuffer
          flushed := (appendToWriteBuffer
            (flushIfNeeded st (min (bs - st.bytesInCurrentBlock) (d :: rest).length))
            ((d :: rest).take (min (bs - st.bytesInCurrentBlock) (d :: rest).length))).flushed
          totalBytesWritten := (appendToWriteBuffer
            (flushIfNeeded st (min (bs - st.bytesInCurrentBlock) (d :: rest).length))
            ((d :: rest).take (min (bs - st.bytesInCurrentBlock) (d :: rest).length))).totalBytesWritten
            + min (bs - st.bytesInCurrentBlock) (d :: rest).length } : VsiState) =
          ({
            expectingDelimiter := true
            bytesInCurrentBlock := 0
            totalBytesWritten :=
              (obs st).totalBytesWritten
                + min (bs - st.bytesInCurrentBlock) (d :: rest).length
            emitted := (obs st).emitted ++
              (d :: rest).take (min (bs - st.bytesInCurrentBlock) (d :: rest).length) } : VsiObs) := by
        simp [obs, emitted, appendToWriteBuffer, flushIfNeeded, flushWriteBuffer]
        split <;> simp
      rw [hst]
    · rw [if_neg hfull, if_neg hfull]
      have hst : obs ({
          expectingDelimiter := (appendToWriteBuffer
            (flushIfNeeded st (min (bs - st.bytesInCurrentBlock) (d :: rest).length))
            ((d :: rest).take (min (bs - st.bytesInCurrentBlock) (d :: rest).length))).expectingDelimiter
          bytesInCurrentBlock := st.bytesInCurrentBlock
            + min (bs - st.bytesInCurrentBlock) (d :: rest).length
          writeBuffer := (appendToWriteBuffer
            (flushIfNeeded st (min (bs - st.bytesInCurrentBlock) (d :: rest).length))
            ((d :: rest).take (min (bs - st.bytesInCurrentBlock) (d :: rest).length))).writeBuffer
          flushed := (appendToWriteBuffer
            (flushIfNeeded st (min (bs - st.bytesInCurrentBlock) (d :: rest).length))
            ((d :: rest).take (min (bs - st.bytesInCurrentBlock) (d :: rest).length))).flushed
          totalBytesWritten := (appendToWriteBuffer
            (flushIfNeeded st (min (bs - st.bytesInCurrentBlock) (d :: rest).length))
            ((d :: rest).take (min (bs - st.bytesInCurrentBlock) (d :: rest).length))).totalBytesWritten
            + min (bs - st.bytesInCurrentBlock) (d :: rest).length } : VsiState) =
          ({
            expectingDelimiter := false
            bytesInCurrentBlock := st.bytesInCurrentBlock
              + min (bs - st.bytesInCurrentBlock) (d :: rest).length
            totalBytesWritten :=
              (obs st).totalBytesWritten
                + min (bs - st.bytesInCurrentBlock) (d :: rest).length
            emitted := (obs st).emitted ++
              (d :: rest).take (min (bs - st.bytesInCurrentBlock) (d :: rest).length) } : VsiObs) := by
        simp [obs, emitted, appendToWriteBuffer, flushIfNeeded, flushWriteBuffer, hexpF]
        split <;> simp [hexpF]
      rw [hst]

/-! ## Decoder state invariant and conservation lemmas -/

/-- The decoder state invariant (claim C10): when a delimiter is
expected the partial-block counter is zero; while inside a data block
the counter is strictly below the block size. -/
def VsiInvariant (blockSize : Nat) (st : VsiState) : Prop :=
  (st.expectingDelimiter = true → st.bytesInCurrentBlock = 0) ∧
  (st.expectingDelimiter = false → st.bytesInCurrentBlock < blockSize)

def VsiObsInvariant (blockSize : Nat) (o : VsiObs) : Prop :=
  (o.expectingDelimiter = true → o.bytesInCurrentBlock = 0) ∧
  (o.expectingDelimiter = false → o.bytesInCurrentBlock < blockSize)

theorem stepObs_invariant (bs : Nat) (hbs : 0 < bs) (o o' : VsiObs) (d : Nat)
    (hinv : VsiObsInvariant bs o) (h : stepObs bs o d = some o') :
    VsiObsInvariant bs o' := by
  unfold VsiObsInvariant at hinv ⊢
  unfold stepObs normalizeObs at h
  simp only [] at h
  split_ifs at h <;>
    first
    | (injection h with h
       subst h
       constructor <;> intro hx <;> simp_all <;> omega)
    | exact absurd h (by simp)

theorem runObs_invariant (bs : Nat) (hbs : 0 < bs) (data : List Nat) :
    ∀ (o o' : VsiObs), VsiObsInvariant bs o → runObs bs o data = some o' →
    VsiObsInvariant bs o' := by
  induction data with
  | nil => intro o o' hinv h; rw [runObs] at h; cases h; exact hinv
  | cons d rest ih =>
    intro o o' hinv h
    rw [runObs_cons] at h
    cases hstep : stepObs bs o d with
    | none => rw [hstep] at h; cases h
    | some o2 =>
      rw [hstep] at h
      simp only [Option.some_bind] at h
      exact ih o2 o' (stepObs_invariant bs hbs o o2 d hinv hstep) h

/-- Byte conservation of a single reference step: emitted bytes grow
exactly with the running total. -/
theorem stepObs_conservation (bs : Nat) (o o' : VsiObs) (d : Nat)
    (h : stepObs bs o d = some o') :
    o'.emitted.length + o.totalBytesWritten =
      o.emitted.length + o'.totalBytesWritten := by
  unfold stepObs normalizeObs at h
  simp only [] at h
  split_ifs at h <;>
    first
    | (injection h with h
       subst h
       simp <;> omega)
    | exact absurd h (by simp)

theorem runObs_conservation (bs : Nat) (data : List Nat) :
    ∀ (o o' : VsiObs), runObs bs o data = some o' →
    o'.emitted.length + o.totalBytesWritten =
      o.emitted.length + o'.totalBytesWritten := by
  induction data with
  | nil => intro o o' h; rw [runObs] at h; cases h; rfl
  | cons d rest ih =>
    intro o o' h
    rw [runObs_cons] at h
    cases hstep : stepObs bs o d with
    | none => rw [hstep] at h; cases h
    | some o2 =>
      rw [hstep] at h
      simp only [Option.some_bind] at h
      have h1 := stepObs_conservation bs o o2 d hstep
      have h2 := ih o2 o' h
      omega

theorem processDecompressedData_some_obs (bs : Nat) (st st' : VsiState)
    (data : List Nat) (h : processDecompressedData bs st data = some st') :
    runObs bs (obs st) data = some (obs st') := by
  have := processDecompressedData_obs bs st data
  rw [h] at this
  simpa using this.symm

/-- Invariant preservation for `_processDecompressedData`. -/
theorem processDecompressedData_invariant (bs : Nat) (hbs : 0 < bs)
    (st st' : VsiState) (data : List Nat)
    (hinv : VsiInvariant bs st)
    (h : processDecompressedData bs st data = some st') :
    VsiInvariant bs st' :=
  runObs_invariant bs hbs data (obs st) (obs st') hinv
    (processDecompressedData_some_obs bs st st' data h)

/-- Bytes emitted towards the device grow exactly with
`_totalBytesWritten` across a `_processDecompressedData` call. -/
theorem processDecompressedData_conservation (bs : Nat)
    (st st' : VsiState) (data : List Nat)
    (h : processDecompressedData bs st data = some st') :
    (emitted st').length + st.totalBytesWritten =
      (emitted st).length + st'.totalBytesWritten :=
  runObs_conservation bs data (obs st) (obs st')
    (processDecompressedData_some_obs bs st st' data h)

/-- Chunking independence: folding `_processDecompressedData` over any
partition of the decompressed stream gives the same observable result
as one call on the whole stream. -/
theorem processDecompressedData_join (bs : Nat) (chunks : List (List Nat)) :
    ∀ st : VsiState,
    Option.map obs (List.foldlM (processDecompressedData bs) st chunks) =
      Option.map obs (processDecompressedData bs st chunks.flatten) := by
  induction chunks with
  | nil =>
    intro st
    simp [List.foldlM, processDecompressedData_nil]
  | cons c cs ih =>
    intro st
    rw [List.flatten_cons, List.foldlM_cons]
    cases hc : processDecompressedData bs st c with
    | none =>
      have hobs := processDecompressedData_obs bs st c
      rw [hc] at hobs
      rw [processDecompressedData_obs bs st (c ++ cs.flatten), runObs_append, ← hobs]
      simp
    | some s1 =>
      have hobs := processDecompressedData_some_obs bs st s1 c hc
      rw [processDecompressedData_obs bs st (c ++ cs.flatten), runObs_append, hobs]
      simp only [Option.some_bind]
      show Option.map obs (List.foldlM (processDecompressedData bs) s1 cs) = _
      rw [ih s1, processDecompressedData_obs bs s1 cs.flatten]

/-! ## Claim theorems for the block protocol -/

/-- C3: wherever the decoder expects a delimiter, a 0x00 byte (sparse
block) makes it emit exactly blockSize zero bytes, consume no payload
bytes beyond the delimiter itself (the call continues on exactly the
remaining stream), and leave the decoder expecting a delimiter again
(vsiextractthread.cpp lines 384-400). -/
theorem c3_sparse_block_emits_zeros (bs k tot : Nat) (buf fl rest : List Nat) :
    ∃ st1 : VsiState,
      processDecompressedData bs ⟨true, k, buf, fl, tot⟩ (0x00 :: rest) =
        processDecompressedData bs st1 rest ∧
      emitted st1 = emitted ⟨true, k, buf, fl, tot⟩ ++ List.replicate bs 0 ∧
      st1.totalBytesWritten = tot + bs ∧
      st1.expectingDelimiter = true ∧
      st1.bytesInCurrentBlock = k := by
  refine ⟨_, processDecompressedData_sparse bs ⟨true, k, buf, fl, tot⟩ rest rfl,
    ?_, ?_, ?_, ?_⟩
  · show emitted (appendToWriteBuffer (flushIfNeeded ⟨true, k, buf, fl, tot⟩ bs)
      (List.replicate bs 0)) = _
    simp
  · simp
  · simp
  · simp

/-- C4: a 0x01 delimiter starts a data block whose next blockSize
bytes are emitted verbatim (vsiextractthread.cpp lines 401-404 and
410-435), and the observable outcome of the decoder is identical for
every partition of the decompressed stream into successive
`_processDecompressedData` calls (a block split across a chunk
boundary is resumed on the next call). -/
theorem c4_data_block_verbatim_and_chunking :
    (∀ (k tot : Nat) (buf fl payload : List Nat),
      ∃ st1 : VsiState,
        processDecompressedData payload.length ⟨true, k, buf, fl, tot⟩
            (0x01 :: payload) = some st1 ∧
        emitted st1 = emitted ⟨true, k, buf, fl, tot⟩ ++ payload ∧
        st1.totalBytesWritten = tot + payload.length) ∧
    (∀ (bs : Nat) (chunks : List (List Nat)) (st : VsiState),
      Option.map obs (List.foldlM (processDecompressedData bs) st chunks) =
        Option.map obs (processDecompressedData bs st chunks.flatten)) := by
  constructor
  · intro k tot buf fl payload
    rw [processDecompressedData_dataDelim _ _ _ rfl]
    cases payload with
    | nil =>
      exact ⟨_, processDecompressedData_nil _ _, by simp [emitted], by simp⟩
    | cons p ps =>
      rw [processDecompressedData_dataBytes _ _ p ps rfl (by simp)]
      simp only []
      have hmin : min ((p :: ps).length - 0) (p :: ps).length = (p :: ps).length := by
        simp
      rw [hmin, List.take_length, List.drop_length]
      rw [if_pos (by simp)]
      refine ⟨_, processDecompressedData_nil _ _, ?_, ?_⟩
      · show emitted (⟨true, 0, _, _, _⟩ : VsiState) = _
        simp [emitted]
        show (appendToWriteBuffer (flushIfNeeded ⟨false, 0, buf, fl, tot⟩
          (p :: ps).length) (p :: ps)).flushed ++ _ = _
        have : emitted (appendToWriteBuffer (flushIfNeeded ⟨false, 0, buf, fl, tot⟩
            (p :: ps).length) (p :: ps)) =
            emitted (⟨false, 0, buf, fl, tot⟩ : VsiState) ++ (p :: ps) := by
          simp
        simpa [emitted] using this
      · simp
  · intro bs chunks st
    exact processDecompressedData_join bs chunks st

/-- C10: the decoder state invariant — `_expectingDelimiter` implies a
zero `_bytesInCurrentBlock`, and being inside a data block implies the
counter is strictly below the block size — holds in the constructor
state and is preserved by every `_processDecompressedData` call that
returns true, however the decompressed stream is split into chunks. -/
theorem c10_decoder_invariant (bs : Nat) (st st' : VsiState) (data : List Nat)
    (hbs : 0 < bs) (hinv : VsiInvariant bs st)
    (h : processDecompressedData bs st data = some st') :
    VsiInvariant bs initVsiState ∧ VsiInvariant bs st' :=
  ⟨⟨fun _ => rfl, fun hc => by simp [initVsiState] at hc⟩,
   processDecompressedData_invariant bs hbs st st' data hinv h⟩

/-- Witness for C10 at a concrete input: block size 1, initial state,
stream consisting of one sparse block. -/
theorem c10_decoder_invariant_witness :
    0 < 1 ∧ VsiInvariant 1 initVsiState ∧
      processDecompressedData 1 initVsiState [0x00] = some ⟨true, 0, [0], [], 1⟩ ∧
      (VsiInvariant 1 initVsiState ∧ VsiInvariant 1 ⟨true, 0, [0], [], 1⟩) := by
  have hinv0 : VsiInvariant 1 initVsiState :=
    ⟨fun _ => rfl, fun hc => by simp [initVsiState] at hc⟩
  have heval : processDecompressedData 1 initVsiState [0x00] =
      some ⟨true, 0, [0], [], 1⟩ := by
    simp [processDecompressedData, initVsiState, flushIfNeeded,
      appendToWriteBuffer, writeBufferCapacity]
  exact ⟨Nat.one_pos, hinv0, heval,
    c10_decoder_invariant 1 initVsiState ⟨true, 0, [0], [], 1⟩ [0x00]
      Nat.one_pos hinv0 heval⟩

/-! ## VSI header parsing

`parseVsiHeader` (vsiextractthread.cpp lines 76-108) over the packed
128-byte record of vsiextractthread.h lines 25-35.  The input is the
byte stream of the device; `device->read(sizeof(header))` returns the
first 128 bytes when available, fewer otherwise (and then the
comparison with sizeof(header) fails). -/

def VSI_HEADER_SIZE : Nat := 128

/-- The magic bytes of the constant `VSI_MAGIC` = "VSI1". -/
def vsiMagicBytes : List Nat := [0x56, 0x53, 0x49, 0x31]

structure VsiHeader where
  magic : List Nat
  blockSize : Int
  uncompressedSize : Int
  md5 : List Nat
  label : List Nat
  version : List Nat
  timestamp : Int
  deriving Repr, DecidableEq

/-- Little-endian value of a byte list. -/
def leValue : List Nat → Nat
  | [] => 0
  | b :: rest => b + 256 * leValue rest

/-- Reinterpret an unsigned w-bit value as a twos-complement signed
integer (the header fields are int32_t / int64_t). -/
def toSigned (w : Nat) (n : Nat) : Int :=
  if n < 2 ^ (w - 1) then (n : Int) else (n : Int) - 2 ^ w

/-- Decode the packed little-endian header record (field offsets from
the struct layout: magic at 0, blockSize at 4, uncompressedSize at 8,
md5 at 16, label at 32, version at 96, timestamp at 124). -/
def decodeVsiHeader (bytes : List Nat) : VsiHeader :=
  { magic := bytes.take 4
    blockSize := toSigned 32 (leValue ((bytes.drop 4).take 4))
    uncompressedSize := toSigned 64 (leValue ((bytes.drop 8).take 8))
    md5 := (bytes.drop 16).take 16
    label := (bytes.drop 32).take 64
    version := (bytes.drop 96).take 28
    timestamp := toSigned 32 (leValue ((bytes.drop 124).take 4)) }

/-- The parser `parseVsiHeader`: read exactly 128 bytes (reject a short read),
then reject unless the magic matches, `0 < blockSize <= 64*1024*1024`
and `uncompressedSize > 0`; `none` models returning false. -/
def parseVsiHeader (input : List Nat) : Option VsiHeader :=
  if input.length < VSI_HEADER_SIZE then none
  else
    let header := decodeVsiHeader (input.take VSI_HEADER_SIZE)
    if header.magic ≠ vsiMagicBytes then none
    else if header.blockSize ≤ 0 ∨ header.blockSize > 64 * 1024 * 1024 then none
    else if header.uncompressedSize ≤ 0 then none
    else some header

/-- C5: `parseVsiHeader` reads exactly the first 128 bytes of its input
(its result does not depend on anything beyond them), and it accepts if
and only if the input holds at least 128 bytes (the read succeeds in
full), the first four bytes are the magic "VSI1", the little-endian
int32 block size satisfies 0 < blockSize <= 64 MiB, and the
little-endian int64 uncompressed size is positive; every input
violating any of these conditions is rejected. -/
theorem c5_parse_header (input : List Nat) :
    (parseVsiHeader input = parseVsiHeader (input.take VSI_HEADER_SIZE)) ∧
    ((parseVsiHeader input).isSome ↔
      (VSI_HEADER_SIZE ≤ input.length ∧
       input.take 4 = vsiMagicBytes ∧
       0 < toSigned 32 (leValue ((input.drop 4).take 4)) ∧
       toSigned 32 (leValue ((input.drop 4).take 4)) ≤ 64 * 1024 * 1024 ∧
       0 < toSigned 64 (leValue ((input.drop 8).take 8)))) := by
  have h4 : (input.take VSI_HEADER_SIZE).take 4 = input.take 4 := by
    rw [List.take_take]; norm_num [VSI_HEADER_SIZE]
  have hbs : ((input.take VSI_HEADER_SIZE).drop 4).take 4 = (input.drop 4).take 4 := by
    rw [List.drop_take, List.take_take]; norm_num [VSI_HEADER_SIZE]
  have hus : ((input.take VSI_HEADER_SIZE).drop 8).take 8 = (input.drop 8).take 8 := by
    rw [List.drop_take, List.take_take]; norm_num [VSI_HEADER_SIZE]
  by_cases hlen : input.length < VSI_HEADER_SIZE
  · constructor
    · rw [parseVsiHeader, if_pos hlen, parseVsiHeader, if_pos]
      simp only [List.length_take]
      omega
    · rw [parseVsiHeader, if_pos hlen]
      simp only [Option.isSome_none, Bool.false_eq_true, false_iff]
      intro hcon
      omega
  · have htt : (input.take VSI_HEADER_SIZE).take VSI_HEADER_SIZE =
        input.take VSI_HEADER_SIZE := by
      rw [List.take_take]; simp
    constructor
    · rw [parseVsiHeader, parseVsiHeader]
      simp only [List.length_take, htt]
      have hmin : ¬(VSI_HEADER_SIZE ⊓ input.length < VSI_HEADER_SIZE) := by
        intro hcon
        rw [min_lt_iff] at hcon
        rcases hcon with hc | hc
        · exact lt_irrefl _ hc
        · exact hlen hc
      rw [if_neg hlen, if_neg hmin]
    · rw [parseVsiHeader, if_neg hlen]
      simp only [decodeVsiHeader, h4, hbs, hus]
      split_ifs with hmagic hrange hsize
      · simp only [Option.isSome_none, Bool.false_eq_true, false_iff]
        intro hcon
        exact hmagic hcon.2.1
      · simp only [Option.isSome_none, Bool.false_eq_true, false_iff]
        intro hcon
        rcases hrange with hr | hr
        · omega
        · omega
      · simp only [Option.isSome_none, Bool.false_eq_true, false_iff]
        intro hcon
        omega
      · simp only [Option.isSome_some, true_iff]
        push_neg at hmagic hrange
        exact ⟨by omega, hmagic, by omega, by omega, by omega⟩

/-! ## The extractVsiLocalRun session (vsiextractthread.cpp lines 191-355)

The streaming-inflate loop is modelled over a list of iteration
records: each outer-loop iteration reads one chunk of compressed
payload bytes (`comp`, folded into the running MD5 at line 272) and
the inner inflate loop drains some chunk of decompressed output
(`dec`, handed to `_processDecompressedData` at line 296).  zlib is
external, so the decomposition of the decompressed stream into `dec`
chunks is an arbitrary input of the model; theorem
processDecompressedData_join shows it does not matter.  MD5 is
abstracted as an arbitrary digest function.  Cancellation is observed
at the head of the outer loop: a cancelled run processes only the
iterations before the flag was seen, skips the flush (the short
circuit at line 315) and returns at the check of line 324. -/

inductive VsiOutcome where
  | formatError
  | cancelled
  | checksumError
  | sizeMismatch
  | success
  deriving Repr, DecidableEq

/-- The read/decode loop of lines 255-312: threads the decoder state
through `_processDecompressedData` and accumulates every compressed
payload byte read (the bytes hashed at line 272). -/
def vsiDecodeLoop (bs : Nat) :
    VsiState → List Nat → List (List Nat × List Nat) → Option (VsiState × List Nat)
  | st, acc, [] => some (st, acc)
  | st, acc, (comp, dec) :: rest =>
    match processDecompressedData bs st dec with
    | none => none
    | some st' => vsiDecodeLoop bs st' (acc ++ comp) rest

/-- The terminal part of extractVsiLocalRun: flush (line 315, skipped
when cancelled), the cancellation check (line 324), the MD5
comparison against `_header.md5` (lines 329-338), the total-size
comparison against `_header.uncompressedSize` (lines 343-349), then
`_writeComplete` (line 354). -/
def extractVsiLocalRun (md5 : List Nat → List Nat) (h : VsiHeader)
    (chunks : List (List Nat × List Nat)) (cancelled : Bool) (cancelIdx : Nat) :
    VsiOutcome :=
  let processed := if cancelled then chunks.take cancelIdx else chunks
  match vsiDecodeLoop h.blockSize.toNat initVsiState [] processed with
  | none => VsiOutcome.formatError
  | some (st, payload) =>
    if cancelled then VsiOutcome.cancelled
    else
      let stF := flushWriteBuffer st
      if md5 payload ≠ h.md5 then VsiOutcome.checksumError
      else if stF.totalBytesWritten ≠ h.uncompressedSize.toNat then
        VsiOutcome.sizeMismatch
      else VsiOutcome.success

/-- The accumulated hash input of a completed decode loop is the
concatenation of every compressed chunk read. -/
theorem vsiDecodeLoop_payload (bs : Nat) (chunks : List (List Nat × List Nat)) :
    ∀ (st : VsiState) (acc : List Nat) (st' : VsiState) (payload : List Nat),
    vsiDecodeLoop bs st acc chunks = some (st', payload) →
    payload = acc ++ (chunks.map Prod.fst).flatten := by
  induction chunks with
  | nil =>
    intro st acc st' payload hdec
    rw [vsiDecodeLoop] at hdec
    injection hdec with hdec
    injection hdec with h1 h2
    simp [h2.symm]
  | cons cd rest ih =>
    intro st acc st' payload hdec
    obtain ⟨comp, dec⟩ := cd
    rw [vsiDecodeLoop] at hdec
    cases hp : processDecompressedData bs st dec with
    | none => rw [hp] at hdec; cases hdec
    | some s1 =>
      rw [hp] at hdec
      simp only [] at hdec
      have := ih s1 (acc ++ comp) st' payload hdec
      simpa using this

/-- Emitted bytes equal the running total along the decode loop when
starting from the constructor state. -/
theorem vsiDecodeLoop_conservation (bs : Nat) (chunks : List (List Nat × List Nat)) :
    ∀ (st : VsiState) (acc : List Nat) (st' : VsiState) (payload : List Nat),
    vsiDecodeLoop bs st acc chunks = some (st', payload) →
    (emitted st').length + st.totalBytesWritten =
      (emitted st).length + st'.totalBytesWritten := by
  induction chunks with
  | nil =>
    intro st acc st' payload hdec
    rw [vsiDecodeLoop] at hdec
    injection hdec with hdec
    injection hdec with h1 h2
    rw [h1]
  | cons cd rest ih =>
    intro st acc st' payload hdec
    obtain ⟨comp, dec⟩ := cd
    rw [vsiDecodeLoop] at hdec
    cases hp : processDecompressedData bs st dec with
    | none => rw [hp] at hdec; cases hdec
    | some s1 =>
      rw [hp] at hdec
      simp only [] at hdec
      have h1 := processDecompressedData_conservation bs st s1 dec hp
      have h2 := ih s1 (acc ++ comp) st' payload hdec
      omega

/-- C2: for every VSI input whose blocks decode without a format error,
integrity verification happens only after the whole compressed stream
was consumed: the digest compared at line 332 is computed over exactly
the concatenation of every compressed payload byte read after the
128-byte header, and a header whose stored MD5 differs from that digest
makes the session fail with the checksum error — after the full decode,
never earlier, and regardless of whether the size check would also
fail. -/
theorem c2_checksum_verified_after_full_decode (md5 : List Nat → List Nat)
    (h : VsiHeader) (chunks : List (List Nat × List Nat))
    (st : VsiState) (payload : List Nat)
    (hdec : vsiDecodeLoop h.blockSize.toNat initVsiState [] chunks =
      some (st, payload))
    (hmd5 : md5 ((chunks.map Prod.fst).flatten) ≠ h.md5) :
    payload = (chunks.map Prod.fst).flatten ∧
    extractVsiLocalRun md5 h chunks false 0 = VsiOutcome.checksumError := by
  have hpay := vsiDecodeLoop_payload h.blockSize.toNat chunks initVsiState [] st
    payload hdec
  simp only [List.nil_append] at hpay
  refine ⟨hpay, ?_⟩
  rw [extractVsiLocalRun]
  simp only [if_false, ite_false, Bool.false_eq_true]
  rw [hdec]
  simp only [Bool.false_eq_true, if_false, ite_false]
  rw [if_pos (by rw [hpay]; exact hmd5)]

/-! ## Archive extraction loops (downloadarchiveextractthread.cpp)

`_extractCompressedEntry` (lines 184-291) and
`_extractUncompressedEntry` (lines 293-362) run the identical slot
loop: acquire a write slot, `archive_read_data` from the inner
(respectively outer) archive, pad the chunk to the next 512-byte
sector boundary when unaligned, hand the padded chunk to `_writeFile`,
and continue; a zero-length read, or an ARCHIVE_FATAL result whose
error string contains "No progress is possible", breaks the loop,
which then ends in `_writeComplete`; any other negative result throws
(reported by extractImageRun as an extraction error unless cancelled).
The archives are external, so the loop is modelled over the sequence
of `archive_read_data` results; slot acquisition is modelled as
succeeding (the ring buffer is out of scope), and `cancelNow` is the
value of `_cancelled` the iteration observes after its read. -/

inductive ArchiveReadEvent where
  | chunk (size : Nat) (writeOk : Bool) (cancelNow : Bool)
  | eofRead
  | fatalNoProgress
  | fatalOther
  deriving Repr, DecidableEq

inductive ArchiveOutcome where
  | writeComplete
  | writeError
  | thrown
  deriving Repr, DecidableEq

/-- Sector padding (lines 256-262 and 332-338): a chunk that is not a
multiple of 512 bytes is zero-padded up to the next 512-byte boundary
before being handed to `_writeFile`; an aligned chunk is handed as
is. -/
def padTo512 (n : Nat) : Nat :=
  if n % 512 = 0 then n else n + (512 - n % 512)

/-- The shared slot loop; the accumulator counts every byte handed to
`_writeFile`.  The first argument is `_cancelled` as observed at the
loop head: once true the loop exits and `_writeComplete` runs.  `none`
means the event list ran out while the loop would have kept reading. -/
def archiveEntryExtractLoop :
    Bool → Nat → List ArchiveReadEvent → Option (ArchiveOutcome × Nat)
  | true, handed, _ => some (ArchiveOutcome.writeComplete, handed)
  | false, _, [] => none
  | false, handed, e :: rest =>
    match e with
    | ArchiveReadEvent.eofRead => some (ArchiveOutcome.writeComplete, handed)
    | ArchiveReadEvent.fatalNoProgress => some (ArchiveOutcome.writeComplete, handed)
    | ArchiveReadEvent.fatalOther => some (ArchiveOutcome.thrown, handed)
    | ArchiveReadEvent.chunk size writeOk cancelNow =>
      let handed1 := handed + padTo512 size
      if ¬writeOk ∧ ¬cancelNow then some (ArchiveOutcome.writeError, handed1)
      else archiveEntryExtractLoop cancelNow handed1 rest

/-- The function `_extractUncompressedEntry` (lines 293-362): the slot loop over the
outer archive's read results. -/
def extractUncompressedEntry (events : List ArchiveReadEvent) :
    Option (ArchiveOutcome × Nat) :=
  archiveEntryExtractLoop false 0 events

/-- The function `_extractCompressedEntry` (lines 184-291): after opening the inner
raw-format decoder bridged to the outer entry stream, its slot loop
(lines 222-287) is statement-for-statement the loop of
`_extractUncompressedEntry`, over the inner decoder's read results. -/
def extractCompressedEntry (events : List ArchiveReadEvent) :
    Option (ArchiveOutcome × Nat) :=
  archiveEntryExtractLoop false 0 events

/-- A run of successfully written chunks followed by EOF completes with
the per-chunk padded byte counts summed onto the accumulator. -/
theorem archiveEntryExtractLoop_chunks (sizes : List Nat) : ∀ handed : Nat,
    archiveEntryExtractLoop false handed
      ((sizes.map fun s => ArchiveReadEvent.chunk s true false) ++
        [ArchiveReadEvent.eofRead]) =
      some (ArchiveOutcome.writeComplete, handed + (sizes.map padTo512).sum) := by
  induction sizes with
  | nil => intro handed; simp [archiveEntryExtractLoop]
  | cons s rest ih =>
    intro handed
    rw [List.map_cons, List.cons_append, archiveEntryExtractLoop]
    simp only [not_true, false_and, if_false, ite_false]
    rw [ih (handed + padTo512 s)]
    simp only [List.map_cons, List.sum_cons]
    rw [Nat.add_assoc]

/-- C7 as stated is false on the code: the code pads every unaligned
chunk, not only the final one.  Counterexample: an entry delivered as a
100-byte chunk followed by a 512-byte chunk.  The claim predicts the
non-final 100-byte chunk is handed unpadded, for a total of
100 + 512 = 612 bytes; the code pads it to 512 and hands 1024 bytes. -/
theorem c7_counterexample :
    extractCompressedEntry
      [ArchiveReadEvent.chunk 100 true false,
       ArchiveReadEvent.chunk 512 true false,
       ArchiveReadEvent.eofRead] =
      some (ArchiveOutcome.writeComplete, 1024) ∧
    (1024 : Nat) ≠ 100 + 512 := by
  constructor
  · rfl
  · decide

/-- C7 amended: on the archive extraction path every chunk, final or
not, is independently zero-padded up to the next 512-byte boundary
when it is not already sector-aligned, and handed unpadded when it is;
consequently an entry whose stream arrives in 512-aligned chunks (for
example 10 MiB delivered in aligned chunks through the two-stage path)
yields output of exactly its own size. -/
theorem c7_padding_per_chunk :
    (∀ sizes : List Nat,
      extractCompressedEntry
        ((sizes.map fun s => ArchiveReadEvent.chunk s true false) ++
          [ArchiveReadEvent.eofRead]) =
        some (ArchiveOutcome.writeComplete, (sizes.map padTo512).sum)) ∧
    (∀ s : Nat, s % 512 = 0 → padTo512 s = s) ∧
    (∀ s : Nat, s % 512 ≠ 0 → padTo512 s = s + (512 - s % 512)) ∧
    (∀ sizes : List Nat, (∀ s ∈ sizes, s % 512 = 0) →
      extractCompressedEntry
        ((sizes.map fun s => ArchiveReadEvent.chunk s true false) ++
          [ArchiveReadEvent.eofRead]) =
        some (ArchiveOutcome.writeComplete, sizes.sum)) := by
  have hbase : ∀ sizes : List Nat,
      extractCompressedEntry
        ((sizes.map fun s => ArchiveReadEvent.chunk s true false) ++
          [ArchiveReadEvent.eofRead]) =
        some (ArchiveOutcome.writeComplete, (sizes.map padTo512).sum) := by
    intro sizes
    rw [extractCompressedEntry, archiveEntryExtractLoop_chunks]
    simp
  refine ⟨hbase, fun s hs => by simp [padTo512, hs], fun s hs => by simp [padTo512, hs], ?_⟩
  intro sizes haligned
  rw [hbase sizes]
  have hmap : ∀ l : List Nat, (∀ s ∈ l, s % 512 = 0) → l.map padTo512 = l := by
    intro l
    induction l with
    | nil => intro _; rfl
    | cons a t iht =>
      intro hl
      rw [List.map_cons, iht (fun s hs => hl s (List.mem_cons_of_mem a hs))]
      simp [padTo512, hl a (List.mem_cons_self a t)]
  rw [hmap sizes haligned]

/-- Witness for the aligned-chunk parts of the amended C7: a 1024-byte
and a 512-byte aligned chunk, and the unaligned chunk 100. -/
theorem c7_padding_per_chunk_witness :
    ((1024 : Nat) % 512 = 0 ∧ padTo512 1024 = 1024) ∧
    ((100 : Nat) % 512 ≠ 0 ∧ padTo512 100 = 100 + (512 - 100 % 512)) ∧
    ((∀ s ∈ [(1024 : Nat), 512], s % 512 = 0) ∧
      extractCompressedEntry
        (([(1024 : Nat), 512].map fun s => ArchiveReadEvent.chunk s true false) ++
          [ArchiveReadEvent.eofRead]) =
        some (ArchiveOutcome.writeComplete, [(1024 : Nat), 512].sum)) := by
  refine ⟨⟨by decide, c7_padding_per_chunk.2.1 1024 (by decide)⟩,
    ⟨by decide, c7_padding_per_chunk.2.2.1 100 (by decide)⟩,
    ⟨by decide, c7_padding_per_chunk.2.2.2 [1024, 512] (by decide)⟩⟩

/-- C8: in both archive extraction loops (the loop shared by
`_extractCompressedEntry` and `_extractUncompressedEntry`), a
zero-length read ends the stream and reaches `_writeComplete`, and an
ARCHIVE_FATAL read whose message reports "No progress is possible" on
the exhausted filter chain is treated identically — a normal end of
stream reaching `_writeComplete`, not an error; by contrast any other
fatal read throws. -/
theorem c8_termination_eof_and_no_progress :
    ∀ (handed : Nat) (rest : List ArchiveReadEvent),
      archiveEntryExtractLoop false handed (ArchiveReadEvent.eofRead :: rest) =
        some (ArchiveOutcome.writeComplete, handed) ∧
      archiveEntryExtractLoop false handed
          (ArchiveReadEvent.fatalNoProgress :: rest) =
        some (ArchiveOutcome.writeComplete, handed) ∧
      archiveEntryExtractLoop false handed (ArchiveReadEvent.fatalOther :: rest) =
        some (ArchiveOutcome.thrown, handed) := by
  intro handed rest
  exact ⟨rfl, rfl, rfl⟩

/-! ## Entry matching and the extractImageRun search loop
(downloadarchiveextractthread.cpp lines 85-140, archiveentryiodevice.cpp
lines 52-71)

Entry names are lists of characters; `Char.toLower` models
QString::toLower on the ASCII names involved. -/

/-- The result of `entryName.section` with separator slash and index -1,
and of `QFileInfo(..).fileName()`: the
part of the path after the last slash. -/
def sectionAfterLastSlash (s : List Char) : List Char :=
  (s.reverse.takeWhile (fun c => c ≠ '/')).reverse

def dotWic : List Char := ['.', 'w', 'i', 'c']

def dotWicDot : List Char := ['.', 'w', 'i', 'c', '.']

/-- The suffixes `_isCompressedEntry` recognizes
(downloadarchiveextractthread.cpp lines 39-44). -/
def compressedEntrySuffixes : List (List Char) :=
  [['.', 'x', 'z'], ['.', 'g', 'z'], ['.', 'z', 's', 't'],
   ['.', 'b', 'z', '2'], ['.', 'l', 'z', '4']]

/-- The predicate `_isCompressedEntry` (lines 39-44). -/
def isCompressedEntry (entryName : List Char) : Bool :=
  let lower := entryName.map Char.toLower
  compressedEntrySuffixes.any fun s => s.isSuffixOf lower

/-- QString::contains for character lists: the needle occurs as a
contiguous subsequence of the haystack. -/
def qContains (haystack needle : List Char) : Bool :=
  match haystack with
  | [] => needle == []
  | _ :: t => needle.isPrefixOf haystack || qContains t needle

/-- The per-entry match of extractImageRun (lines 94-107): with a
target, exact path, path ending in "/" + target, or basename equality;
with no target, lowercase name ending in ".wic" or containing
".wic.". -/
def entryMatches (targetEntry : List Char) (entryName : List Char) : Bool :=
  if targetEntry ≠ [] then
    (entryName == targetEntry) || (('/' :: targetEntry).isSuffixOf entryName) ||
      (sectionAfterLastSlash entryName == targetEntry)
  else
    let lower := entryName.map Char.toLower
    dotWic.isSuffixOf lower || qContains lower dotWicDot

/-- The search of extractImageRun (lines 85-131): first matching entry
in container iteration order. -/
def findTargetEntry (targetEntry : List Char) (entries : List (List Char)) :
    Option (List Char) :=
  entries.find? (entryMatches targetEntry)

/-- The per-entry match of ArchiveEntryIODevice::open
(archiveentryiodevice.cpp lines 56-58): full path or basename only. -/
def archiveEntryIODeviceMatches (entryName : List Char) (current : List Char) :
    Bool :=
  (current == entryName) || (sectionAfterLastSlash current == entryName)

/-- Outcome of the extractImageRun search loop with its cancellation
checks: `if (_cancelled) break` at line 87 and the
`if (!found && !_cancelled)` guard of lines 133-140. -/
inductive SearchOutcome where
  | extracted (entryName : List Char)
  | entryNotFound
  | cancelledOut
  deriving Repr, DecidableEq

/-- The search loop of extractImageRun: when cancelled at iteration
`cancelIdx`, only the entries before it are examined, and
entry-not-found is reported only when the loop was not cancelled. -/
def extractImageRunSearch (targetEntry : List Char) (entries : List (List Char))
    (cancelled : Bool) (cancelIdx : Nat) : SearchOutcome :=
  let scanned := if cancelled then entries.take cancelIdx else entries
  match scanned.find? (entryMatches targetEntry) with
  | some e => SearchOutcome.extracted e
  | none =>
    if cancelled then SearchOutcome.cancelledOut else SearchOutcome.entryNotFound

/-- C9: cancellation takes precedence over error reporting.
(1) In the archive slot loop, a device-write failure observed together
with the cancellation flag does not produce the write error: the loop
exits through the cancellation check into `_writeComplete`
(`if (!writeOk && !_cancelled)` at lines 274 and 350).
(2) A cancelled entry search never reports entry-not-found
(`if (!found && !_cancelled)` at line 133).
(3) A cancelled VSI session returns at the check before verification
(line 324), so neither the checksum error nor the size mismatch can be
raised. -/
theorem c9_cancellation_precedence :
    (∀ (handed size : Nat) (rest : List ArchiveReadEvent),
      archiveEntryExtractLoop false handed
          (ArchiveReadEvent.chunk size false true :: rest) =
        some (ArchiveOutcome.writeComplete, handed + padTo512 size)) ∧
    (∀ (targetEntry : List Char) (entries : List (List Char)) (k : Nat),
      extractImageRunSearch targetEntry entries true k ≠
        SearchOutcome.entryNotFound) ∧
    (∀ (md5 : List Nat → List Nat) (h : VsiHeader)
        (chunks : List (List Nat × List Nat)) (k : Nat),
      extractVsiLocalRun md5 h chunks true k ≠ VsiOutcome.checksumError ∧
      extractVsiLocalRun md5 h chunks true k ≠ VsiOutcome.sizeMismatch) := by
  refine ⟨?_, ?_, ?_⟩
  · intro handed size rest
    rw [archiveEntryExtractLoop]
    simp [archiveEntryExtractLoop]
  · intro targetEntry entries k
    rw [extractImageRunSearch]
    simp only []
    cases hfind : (entries.take k).find? (entryMatches targetEntry) with
    | some e => simp [hfind]
    | none => simp [hfind]
  · intro md5 h chunks k
    rw [extractVsiLocalRun]
    simp only [if_true, ite_true]
    cases hdec : vsiDecodeLoop h.blockSize.toNat initVsiState [] (chunks.take k) with
    | none => simp [hdec]
    | some p => simp [hdec]

/-- The function `find?` returns the first element satisfying the predicate in
iteration order: everything before it fails the predicate. -/
theorem find?_first_in_order {α : Type} (p : α → Bool) (l : List α) (e : α)
    (h : l.find? p = some e) :
    p e = true ∧ ∃ pre post, l = pre ++ e :: post ∧ ∀ x ∈ pre, p x = false := by
  induction l with
  | nil => cases h
  | cons a t ih =>
    by_cases hp : p a = true
    · rw [List.find?_cons_of_pos _ hp] at h
      injection h with h
      subst h
      exact ⟨hp, [], t, rfl, by simp⟩
    · rw [List.find?_cons_of_neg _ (by simpa using hp)] at h
      obtain ⟨hpe, pre, post, hl, hpre⟩ := ih h
      refine ⟨hpe, a :: pre, post, by simp [hl], ?_⟩
      intro x hx
      rcases List.mem_cons.mp hx with hx | hx
      · subst hx
        simpa using hp
      · exact hpre x hx

/-- Modelled from the spec's words, for comparison with the code: a
"recognized image suffix" is ".wic" alone, or ".wic" followed by one
of the compression suffixes `_isCompressedEntry` knows. -/
def specRecognizedImageSuffix (entryName : List Char) : Bool :=
  let lower := entryName.map Char.toLower
  dotWic.isSuffixOf lower ||
    compressedEntrySuffixes.any fun s => (dotWic ++ s).isSuffixOf lower

/-- C6 as stated is false on the code: with no target requested,
extractImageRun accepts any entry whose lowercase name merely contains
".wic." anywhere (line 106: `lower.contains(".wic.")`), not only names
ending in a recognized image suffix.  The entry "image.wic.txt" is
selected although ".txt" is not a recognized compression suffix. -/
theorem c6_counterexample :
    findTargetEntry []
        [['i', 'm', 'a', 'g', 'e', '.', 'w', 'i', 'c', '.', 't', 'x', 't']] =
      some ['i', 'm', 'a', 'g', 'e', '.', 'w', 'i', 'c', '.', 't', 'x', 't'] ∧
    specRecognizedImageSuffix
      ['i', 'm', 'a', 'g', 'e', '.', 'w', 'i', 'c', '.', 't', 'x', 't'] = false := by
  constructor
  · rfl
  · rfl

/-- C6 amended: with a requested target, extractImageRun selects the
first entry in container iteration order matching by exact full path,
or by path ending in "/" + targetName, or by basename equality; with
no target it selects the first entry whose lowercase name ends with
".wic" or contains ".wic." anywhere (not restricted to recognized
compression suffixes); ArchiveEntryIODevice::open matches only by
exact full path or basename. -/
theorem c6_entry_matching (targetEntry entryName : List Char)
    (entries : List (List Char)) (e : List Char)
    (htgt : targetEntry ≠ [])
    (hfind : findTargetEntry targetEntry entries = some e) :
    (entryMatches targetEntry entryName = true ↔
      (entryName = targetEntry ∨
       ('/' :: targetEntry).isSuffixOf entryName = true ∨
       sectionAfterLastSlash entryName = targetEntry)) ∧
    (entryMatches [] entryName = true ↔
      (dotWic.isSuffixOf (entryName.map Char.toLower) = true ∨
       qContains (entryName.map Char.toLower) dotWicDot = true)) ∧
    (entryMatches targetEntry e = true ∧
      ∃ pre post, entries = pre ++ e :: post ∧
        ∀ x ∈ pre, entryMatches targetEntry x = false) ∧
    (archiveEntryIODeviceMatches targetEntry entryName = true ↔
      (entryName = targetEntry ∨ sectionAfterLastSlash entryName = targetEntry)) := by
  refine ⟨?_, ?_, ?_, ?_⟩
  · rw [entryMatches, if_pos htgt]
    simp [Bool.or_eq_true, beq_iff_eq]
    exact or_assoc
  · rw [entryMatches, if_neg (by simp)]
    simp [Bool.or_eq_true]
  · exact
      let ⟨hpe, hrest⟩ := find?_first_in_order (entryMatches targetEntry) entries e hfind
      ⟨hpe, hrest⟩
  · rw [archiveEntryIODeviceMatches]
    simp [Bool.or_eq_true, beq_iff_eq]

/-- Witness for C6 amended: target "a" among entries ["x", "b/a"],
where "b/a" is selected by the basename rule. -/
theorem c6_entry_matching_witness :
    (['a'] : List Char) ≠ [] ∧
    findTargetEntry ['a'] [['x'], ['b', '/', 'a']] = some ['b', '/', 'a'] ∧
    ((entryMatches ['a'] ['b', '/', 'a'] = true ↔
      (['b', '/', 'a'] = ['a'] ∨
       ('/' :: ['a']).isSuffixOf ['b', '/', 'a'] = true ∨
       sectionAfterLastSlash ['b', '/', 'a'] = ['a'])) ∧
     (entryMatches [] ['b', '/', 'a'] = true ↔
      (dotWic.isSuffixOf (['b', '/', 'a'].map Char.toLower) = true ∨
       qContains (['b', '/', 'a'].map Char.toLower) dotWicDot = true)) ∧
     (entryMatches ['a'] ['b', '/', 'a'] = true ∧
      ∃ pre post, [['x'], ['b', '/', 'a']] = pre ++ ['b', '/', 'a'] :: post ∧
        ∀ x ∈ pre, entryMatches ['a'] x = false) ∧
     (archiveEntryIODeviceMatches ['a'] ['b', '/', 'a'] = true ↔
      (['b', '/', 'a'] = ['a'] ∨ sectionAfterLastSlash ['b', '/', 'a'] = ['a']))) := by
  refine ⟨by decide, by rfl, ?_⟩
  exact c6_entry_matching ['a'] ['b', '/', 'a'] [['x'], ['b', '/', 'a']]
    ['b', '/', 'a'] (by decide) (by rfl)

/-! ## Claim theorems about session byte totals (C1, C2) -/

/-- C1 as stated is false on the code for the archive path: the
extraction loops never compare anything against the entry's declared
size, and every unaligned chunk is padded, so a session can hand more
bytes than the declared size to the DeviceWriter and still terminate
in `_writeComplete`.  Counterexample: an entry whose declared size is
100 bytes and whose stream arrives as one 100-byte chunk; the loop
pads it to 512, hands 512 bytes and completes successfully with no
integrity error. -/
theorem c1_counterexample :
    extractUncompressedEntry
        [ArchiveReadEvent.chunk 100 true false, ArchiveReadEvent.eofRead] =
      some (ArchiveOutcome.writeComplete, 512) ∧
    (512 : Nat) ≠ 100 := by
  constructor
  · rfl
  · decide

/-- C1 amended: the exact-size invariant holds on the VSI path only.
There, when decode and checksum succeed, the bytes handed to the
writer equal `_totalBytesWritten`, the session succeeds exactly when
that total equals header.uncompressedSize, and otherwise it fails
with the size-mismatch error — never success.  On the archive path no
size comparison exists: the loop hands the per-chunk padded byte
counts and reaches `_writeComplete` whatever the entry's declared
size was. -/
theorem c1_size_invariant (md5 : List Nat → List Nat) (h : VsiHeader)
    (chunks : List (List Nat × List Nat)) (st : VsiState) (payload : List Nat)
    (hdec : vsiDecodeLoop h.blockSize.toNat initVsiState [] chunks =
      some (st, payload))
    (hmd5 : md5 payload = h.md5) :
    ((flushWriteBuffer st).flushed.length = st.totalBytesWritten) ∧
    (extractVsiLocalRun md5 h chunks false 0 = VsiOutcome.success ↔
      (flushWriteBuffer st).flushed.length = h.uncompressedSize.toNat) ∧
    (extractVsiLocalRun md5 h chunks false 0 = VsiOutcome.success ∨
     extractVsiLocalRun md5 h chunks false 0 = VsiOutcome.sizeMismatch) ∧
    (∀ sizes : List Nat,
      extractUncompressedEntry
        ((sizes.map fun s => ArchiveReadEvent.chunk s true false) ++
          [ArchiveReadEvent.eofRead]) =
        some (ArchiveOutcome.writeComplete, (sizes.map padTo512).sum)) := by
  have hcons := vsiDecodeLoop_conservation h.blockSize.toNat chunks initVsiState
    [] st payload hdec
  have hflen : (flushWriteBuffer st).flushed.length = st.totalBytesWritten := by
    have hfl : (flushWriteBuffer st).flushed = emitted st := rfl
    rw [hfl]
    simpa [initVsiState, emitted] using hcons
  have hrun : extractVsiLocalRun md5 h chunks false 0 =
      (if st.totalBytesWritten ≠ h.uncompressedSize.toNat then
        VsiOutcome.sizeMismatch
      else VsiOutcome.success) := by
    rw [extractVsiLocalRun]
    simp only [Bool.false_eq_true, if_false, ite_false]
    rw [hdec]
    simp only [Bool.false_eq_true, if_false, ite_false]
    rw [if_neg (by simp [hmd5]), flushWriteBuffer_totalBytesWritten]
  refine ⟨hflen, ?_, ?_, ?_⟩
  · rw [hrun, hflen]
    by_cases hsz : st.totalBytesWritten = h.uncompressedSize.toNat
    · simp [hsz]
    · simp [hsz]
  · rw [hrun]
    by_cases hsz : st.totalBytesWritten = h.uncompressedSize.toNat
    · left; simp [hsz]
    · right; simp [hsz]
  · intro sizes
    rw [extractUncompressedEntry, archiveEntryExtractLoop_chunks]
    simp

/-- Witness for the amended C1: block size 1, one sparse block, a
header whose uncompressed size is 1 and whose MD5 matches the digest;
the session succeeds and handed exactly 1 byte. -/
theorem c1_size_invariant_witness :
    (vsiDecodeLoop
        ((⟨vsiMagicBytes, 1, 1, [0], [], [], 0⟩ : VsiHeader)).blockSize.toNat
        initVsiState [] [([9], [0x00])] =
      some (⟨true, 0, [0], [], 1⟩, [9])) ∧
    ((fun _ => [0]) [9] = (⟨vsiMagicBytes, 1, 1, [0], [], [], 0⟩ : VsiHeader).md5) ∧
    ((flushWriteBuffer ⟨true, 0, [0], [], 1⟩).flushed.length =
      (⟨true, 0, [0], [], 1⟩ : VsiState).totalBytesWritten ∧
     (extractVsiLocalRun (fun _ => [0]) ⟨vsiMagicBytes, 1, 1, [0], [], [], 0⟩
          [([9], [0x00])] false 0 = VsiOutcome.success ↔
        (flushWriteBuffer ⟨true, 0, [0], [], 1⟩).flushed.length =
          (⟨vsiMagicBytes, 1, 1, [0], [], [], 0⟩ : VsiHeader).uncompressedSize.toNat) ∧
     (extractVsiLocalRun (fun _ => [0]) ⟨vsiMagicBytes, 1, 1, [0], [], [], 0⟩
          [([9], [0x00])] false 0 = VsiOutcome.success ∨
      extractVsiLocalRun (fun _ => [0]) ⟨vsiMagicBytes, 1, 1, [0], [], [], 0⟩
          [([9], [0x00])] false 0 = VsiOutcome.sizeMismatch) ∧
     (∀ sizes : List Nat,
       extractUncompressedEntry
         ((sizes.map fun s => ArchiveReadEvent.chunk s true false) ++
           [ArchiveReadEvent.eofRead]) =
         some (ArchiveOutcome.writeComplete, (sizes.map padTo512).sum))) := by
  have hdec : vsiDecodeLoop
      ((⟨vsiMagicBytes, 1, 1, [0], [], [], 0⟩ : VsiHeader)).blockSize.toNat
      initVsiState [] [([9], [0x00])] =
      some (⟨true, 0, [0], [], 1⟩, [9]) := by
    show vsiDecodeLoop 1 initVsiState [] [([9], [0x00])] = _
    have hp : processDecompressedData 1 initVsiState [0x00] =
        some ⟨true, 0, [0], [], 1⟩ := by
      simp [processDecompressedData, initVsiState, flushIfNeeded,
        appendToWriteBuffer, writeBufferCapacity]
    simp [vsiDecodeLoop, hp]
  refine ⟨hdec, by rfl, ?_⟩
  exact c1_size_invariant (fun _ => [0]) ⟨vsiMagicBytes, 1, 1, [0], [], [], 0⟩
    [([9], [0x00])] ⟨true, 0, [0], [], 1⟩ [9] hdec (by rfl)

/-- Witness for C2: the same one-sparse-block input against a header
whose stored MD5 differs from the digest; the session fails exactly
with the checksum error. -/
theorem c2_checksum_witness :
    (vsiDecodeLoop
        ((⟨vsiMagicBytes, 1, 1, [1], [], [], 0⟩ : VsiHeader)).blockSize.toNat
        initVsiState [] [([9], [0x00])] =
      some (⟨true, 0, [0], [], 1⟩, [9])) ∧
    ((fun _ => [0]) (([([9], [0x00])].map Prod.fst).flatten) ≠
      (⟨vsiMagicBytes, 1, 1, [1], [], [], 0⟩ : VsiHeader).md5) ∧
    ([9] = ([([9], [0x00])].map Prod.fst).flatten ∧
     extractVsiLocalRun (fun _ => [0]) ⟨vsiMagicBytes, 1, 1, [1], [], [], 0⟩
       [([9], [0x00])] false 0 = VsiOutcome.checksumError) := by
  have hdec : vsiDecodeLoop
      ((⟨vsiMagicBytes, 1, 1, [1], [], [], 0⟩ : VsiHeader)).blockSize.toNat
      initVsiState [] [([9], [0x00])] =
      some (⟨true, 0, [0], [], 1⟩, [9]) := by
    show vsiDecodeLoop 1 initVsiState [] [([9], [0x00])] = _
    have hp : processDecompressedData 1 initVsiState [0x00] =
        some ⟨true, 0, [0], [], 1⟩ := by
      simp [processDecompressedData, initVsiState, flushIfNeeded,
        appendToWriteBuffer, writeBufferCapacity]
    simp [vsiDecodeLoop, hp]
  refine ⟨hdec, by decide, ?_⟩
  exact c2_checksum_verified_after_full_decode (fun _ => [0])
    ⟨vsiMagicBytes, 1, 1, [1], [], [], 0⟩ [([9], [0x00])]
    ⟨true, 0, [0], [], 1⟩ [9] hdec (by decide)

end SimserverImager
